import Mathlib

/-!
video2stream: the stream-watcher process supervisor.

A shallow embedding of `main.go`: the `StreamManager` (one `*exec.Cmd` slot
guarded by a mutex), its methods `isRunning`, `Start`, `Stop`, `Restart`, the
reaper goroutine spawned by `Start`, and the HTTP handlers registered in
`main`.

The operating system is a parameter (`OS W`): every call the program makes
into it (`os.Getenv`, `(*exec.Cmd).Start`, `(*os.Process).Signal`,
`(*exec.Cmd).Wait`) is a function of an explicit world `W`.  Every signal sent, every launch attempted, every goroutine spawned, every
`m.mu.Lock()` / `Unlock()` and every access to the field `m.cmd` is recorded,
in program order, in the `trace` of the state.
-/

namespace Video2Stream

/-- The two signals the program sends: `syscall.Signal(0)` and `syscall.SIGTERM`. -/
inductive Signal where
  | zero
  | SIGTERM
  deriving DecidableEq, Repr

/-- A Go `error` value; `nil` is `none : Option Error`. -/
abbrev Error := String

/-- An `*exec.Cmd`.  `addr` is the identity of the pointer (what `==` on two
`*exec.Cmd` compares), `Path` the executable, `Process` the field
`cmd.Process` (`nil` until `cmd.Start()` has succeeded), holding the pid. -/
structure Cmd where
  addr : Nat
  Path : String
  Process : Option Nat
  deriving DecidableEq, Repr

/-- What the program does that is visible outside a method body. -/
inductive Event where
  | lock
  | unlock
  | readCmd
  | writeCmd
  | signal (pid : Nat) (sig : Signal)
  | start (path : String)
  | go (cmd : Cmd)
  | wait (cmd : Cmd)
  deriving DecidableEq, Repr

/-- The operating system as seen by the program, over a world `W`. -/
structure OS (W : Type) where
  /-- The call `os.Getenv(key)`. -/
  Getenv : W → String → String
  /-- The call `(*os.Process).Signal(sig)` on the process `pid`: `none` is a nil error. -/
  ProcessSignal : W → Nat → Signal → Option Error × W
  /-- The call `(*exec.Cmd).Start()` of a command with the given path: the pid of the
  child (the `Process` field is set), or the error. -/
  CmdStart : W → String → (Error ⊕ Nat) × W
  /-- The call `(*exec.Cmd).Wait()` on the process `pid`, once it has returned. -/
  CmdWait : W → Nat → W

/-- The program state: the `StreamManager` field `cmd`, the world, the number of
`exec.Cmd` values allocated so far (the next fresh pointer), the reaper goroutines
spawned and not yet run, and the trace.  The mutex `mu` is in the trace: its
`lock` and `unlock` events. -/
structure State (W : Type) where
  cmd : Option Cmd
  world : W
  heap : Nat
  goroutines : List Cmd
  trace : List Event
  deriving DecidableEq, Repr

/-- Append one event to the trace. -/
def State.emit {W : Type} (s : State W) (e : Event) : State W :=
  { s with trace := s.trace ++ [e] }

/-- `NewStreamManager`: `&StreamManager{}`, the `cmd` field nil. -/
def NewStreamManager {W : Type} (w : W) : State W :=
  { cmd := none, world := w, heap := 0, goroutines := [], trace := [] }

/-- `StreamManager.isRunning`. -/
def isRunning {W : Type} (os : OS W) (s : State W) : Bool × State W :=
  let s := s.emit .readCmd
  match s.cmd with
  | none => (false, s)
  | some c =>
    match c.Process with
    | none => (false, s)
    | some pid =>
      let r := os.ProcessSignal s.world pid Signal.zero
      (r.1.isNone, ({ s with world := r.2 }).emit (Event.signal pid Signal.zero))

/-- The pointer comparison `m.cmd == cmd` of the reaper (`cmd` is never nil). -/
def ptrEq (h : Option Cmd) (cmd : Cmd) : Bool :=
  match h with
  | none => false
  | some c => c.addr == cmd.addr

/-- The path `Start` launches: `WATCHER_SCRIPT`, or the script in the current
directory when that is empty. -/
def watcherPath {W : Type} (os : OS W) (w : W) : String :=
  if os.Getenv w "WATCHER_SCRIPT" = "" then "./stream_watcher.sh"
  else os.Getenv w "WATCHER_SCRIPT"

/-- `StreamManager.Start`. -/
def Start {W : Type} (os : OS W) (s : State W) : Option Error × State W :=
  let s := s.emit .lock
  let r := isRunning os s
  if r.1 then (none, r.2.emit .unlock)
  else
    let s := r.2
    let path := watcherPath os s.world
    let addr := s.heap
    let s : State W := { s with heap := s.heap + 1 }
    let s := s.emit (.start path)
    match os.CmdStart s.world path with
    | (.inl err, w) => (some err, ({ s with world := w }).emit .unlock)
    | (.inr pid, w) =>
      let cmd : Cmd := { addr := addr, Path := path, Process := some pid }
      let s := ({ s with world := w, cmd := some cmd }).emit .writeCmd
      let s := ({ s with goroutines := s.goroutines ++ [cmd] }).emit (.go cmd)
      (none, s.emit .unlock)

/-- The goroutine `Start` spawns for `cmd`, from the return of `cmd.Wait()` on. -/
def reaper {W : Type} (os : OS W) (cmd : Cmd) (s : State W) : State W :=
  let w := match cmd.Process with
    | none => s.world
    | some pid => os.CmdWait s.world pid
  let s := ({ s with world := w, goroutines := s.goroutines.erase cmd }).emit (.wait cmd)
  let s := s.emit .lock
  let s := s.emit .readCmd
  let s := if ptrEq s.cmd cmd then ({ s with cmd := none }).emit .writeCmd else s
  s.emit .unlock

/-- `StreamManager.Stop`. -/
def Stop {W : Type} (os : OS W) (s : State W) : Option Error × State W :=
  let s := s.emit .lock
  let s := s.emit .readCmd
  match s.cmd with
  | none => (none, s.emit .unlock)
  | some c =>
    match c.Process with
    | none => (none, s.emit .unlock)
    | some pid =>
      let r := os.ProcessSignal s.world pid Signal.SIGTERM
      let s := ({ s with world := r.2 }).emit (Event.signal pid Signal.SIGTERM)
      match r.1 with
      | some err => (some err, s.emit .unlock)
      | none => (none, s.emit .unlock)

/-- `StreamManager.Restart`. -/
def Restart {W : Type} (os : OS W) (s : State W) : Option Error × State W :=
  match Stop os s with
  | (some err, s) => (some err, s)
  | (none, s) => Start os s

/-! ## The HTTP handlers of `main` -/

/-- What a handler answers: the `status` (or `running`, or `error`) of its JSON body. -/
inductive Response where
  | running
  | started
  | stopped
  | stopping
  | restarted
  | error (err : Error)
  | status (running : Bool)
  deriving DecidableEq, Repr

/-- The handler of `POST /api/stream/start`. -/
def startHandler {W : Type} (os : OS W) (s : State W) : Response × State W :=
  let r := isRunning os s
  if r.1 then (Response.running, r.2)
  else
    match Start os r.2 with
    | (some err, s) => (Response.error err, s)
    | (none, s) => (Response.started, s)

/-- The handler of `POST /api/stream/stop`. -/
def stopHandler {W : Type} (os : OS W) (s : State W) : Response × State W :=
  let r := isRunning os s
  if !r.1 then (Response.stopped, r.2)
  else
    match Stop os r.2 with
    | (some err, s) => (Response.error err, s)
    | (none, s) => (Response.stopping, s)

/-- The handler of `POST /api/stream/restart`. -/
def restartHandler {W : Type} (os : OS W) (s : State W) : Response × State W :=
  match Restart os s with
  | (some err, s) => (Response.error err, s)
  | (none, s) => (Response.restarted, s)

/-- The handler of `GET /api/stream/status`. -/
def statusHandler {W : Type} (os : OS W) (s : State W) : Response × State W :=
  let r := isRunning os s
  (Response.status r.1, r.2)

/-! ## Reading a trace -/

/-- The events a run from `s` to `t` added to the trace. -/
def since {W : Type} (s t : State W) : List Event :=
  t.trace.drop s.trace.length

/-- The signals sent, in order: the pid and the signal. -/
def signalsOf : List Event → List (Nat × Signal)
  | [] => []
  | Event.signal pid sig :: es => (pid, sig) :: signalsOf es
  | _ :: es => signalsOf es

/-- The launches attempted (calls of `cmd.Start()`), in order: the path. -/
def launchesOf : List Event → List String
  | [] => []
  | Event.start path :: es => path :: launchesOf es
  | _ :: es => launchesOf es

/-- The reaper goroutines spawned, in order: the command each one watches. -/
def spawnsOf : List Event → List Cmd
  | [] => []
  | Event.go cmd :: es => cmd :: spawnsOf es
  | _ :: es => spawnsOf es

/-- The writes of the field `m.cmd`. -/
def writesOf : List Event → Nat
  | [] => 0
  | Event.writeCmd :: es => writesOf es + 1
  | _ :: es => writesOf es

/-- Lock discipline of a trace: every read and every write of `m.cmd` comes
between a `lock` and the next `unlock`.  `held` says whether the mutex is held
where the trace begins. -/
def disciplined (held : Bool) : List Event → Bool
  | [] => true
  | Event.lock :: es => disciplined true es
  | Event.unlock :: es => disciplined false es
  | Event.readCmd :: es => held && disciplined held es
  | Event.writeCmd :: es => held && disciplined held es
  | _ :: es => disciplined held es

/-- Whether the mutex is held after a trace. -/
def heldAfter (held : Bool) : List Event → Bool
  | [] => held
  | Event.lock :: es => heldAfter true es
  | Event.unlock :: es => heldAfter false es
  | _ :: es => heldAfter held es

/-! ## A concrete operating system

The children of the supervisor, with the liveness probe succeeding exactly when
the probed process is alive.  A signal never ends a process by itself: a live
process ends in a step of its own (`Action.exit`), whenever it does. -/

/-- The process table and the configuration. -/
structure Kernel where
  alive : List Nat
  nextPid : Nat
  watcher : String
  launchErr : Option Error
  deriving DecidableEq, Repr

/-- The operating system over `Kernel`. -/
def kernelOS : OS Kernel where
  Getenv k key := if key = "WATCHER_SCRIPT" then k.watcher else ""
  ProcessSignal k pid _ :=
    if pid ∈ k.alive then (none, k) else (some "os: process already finished", k)
  CmdStart k _ :=
    match k.launchErr with
    | some err => (Sum.inl err, k)
    | none =>
      (Sum.inr k.nextPid, { k with alive := k.nextPid :: k.alive, nextPid := k.nextPid + 1 })
  CmdWait k _ := k

/-- The steps of the whole system: the control operations, the exit of a live
process, the reaper of a launch, and the environment changing whether a launch
succeeds and which script is configured. -/
inductive Action where
  | Start
  | Stop
  | Restart
  | IsRunning
  | exit (pid : Nat)
  | reaper (cmd : Cmd)
  | setLaunchErr (err : Option Error)
  | setWatcher (path : String)
  deriving DecidableEq, Repr

/-- When a step can happen: a process that exits is alive; a reaper that runs was
spawned, has not run yet, and its process has exited (`cmd.Wait()` has returned). -/
def enabled (a : Action) (s : State Kernel) : Bool :=
  match a with
  | Action.exit pid => decide (pid ∈ s.world.alive)
  | Action.reaper cmd =>
    decide (cmd ∈ s.goroutines) &&
      (match cmd.Process with
       | none => true
       | some pid => decide (pid ∉ s.world.alive))
  | _ => true

/-- One step. -/
def step (a : Action) (s : State Kernel) : State Kernel :=
  match a with
  | Action.Start => (Start kernelOS s).2
  | Action.Stop => (Stop kernelOS s).2
  | Action.Restart => (Restart kernelOS s).2
  | Action.IsRunning => (isRunning kernelOS s).2
  | Action.exit pid => { s with world := { s.world with alive := s.world.alive.erase pid } }
  | Action.reaper cmd => reaper kernelOS cmd s
  | Action.setLaunchErr err => { s with world := { s.world with launchErr := err } }
  | Action.setWatcher path => { s with world := { s.world with watcher := path } }

/-- A kernel at boot: no child yet. -/
def boot (watcher : String) (launchErr : Option Error) : Kernel :=
  { alive := [], nextPid := 1, watcher := watcher, launchErr := launchErr }

/-- Run a schedule from a state; `none` when a step of it is not enabled. -/
def run (s : State Kernel) : List Action → Option (State Kernel)
  | [] => some s
  | a :: as => if enabled a s then run (step a s) as else none

/-- The states reachable from a fresh supervisor. -/
inductive Reachable : State Kernel → Prop where
  | init (watcher : String) (launchErr : Option Error) :
      Reachable (NewStreamManager (boot watcher launchErr))
  | step {s : State Kernel} (a : Action) :
      Reachable s → enabled a s = true → Reachable (step a s)

/-! ## Notions used by the statements -/

/-- The handle `h` refers to the launch `L`: it is present and is the same pointer. -/
def refersTo (h : Option Cmd) (L : Cmd) : Prop :=
  ∃ c, h = some c ∧ c.addr = L.addr

/-- The process the handle tracks: the pid behind `m.cmd.Process`, when both are set. -/
def tracked {W : Type} (s : State W) : Option Nat :=
  match s.cmd with
  | none => none
  | some c => c.Process

/-- The events of one call of `isRunning`: the read of `m.cmd`, and the zero signal
when there is a process to probe. -/
def probeEvents {W : Type} (s : State W) : List Event :=
  match tracked s with
  | none => [Event.readCmd]
  | some pid => [Event.readCmd, Event.signal pid Signal.zero]

/-- Every handle has a process: `m.cmd` is nil or its `Process` field is set, as it is
for every command `Start` stores. -/
def wellFormed {W : Type} (s : State W) : Bool :=
  match s.cmd with
  | none => true
  | some c => c.Process.isSome

/-- The invariant of the reachable states: a live child is the one the handle tracks;
every command a reaper watches was allocated before; two watched commands with the
same pointer are the same command; the handle is watched by a reaper. -/
structure Inv (s : State Kernel) : Prop where
  alive : s.world.alive = [] ∨ ∃ pid, tracked s = some pid ∧ s.world.alive = [pid]
  fresh : ∀ c ∈ s.goroutines, c.addr < s.heap
  inj : ∀ c₁ ∈ s.goroutines, ∀ c₂ ∈ s.goroutines, c₁.addr = c₂.addr → c₁ = c₂
  watched : ∀ c, s.cmd = some c → c ∈ s.goroutines

/-- The state after one successful `Start` on a fresh supervisor: the worker is
tracked and alive. -/
def runningState : State Kernel :=
  step Action.Start (NewStreamManager (boot "" none))

/-- A supervisor whose worker has exited and has not been reaped yet, while the script
can no longer be launched. -/
def staleState : State Kernel :=
  step (Action.setLaunchErr (some "fork/exec ./stream_watcher.sh: no such file or directory"))
    (step (Action.exit 1) runningState)

/-! ## The methods, case by case -/

theorem ptrEq_iff (h : Option Cmd) (L : Cmd) : ptrEq h L = true ↔ refersTo h L := by
  cases h <;> simp [ptrEq, refersTo]

theorem since_append {W : Type} (s t : State W) (evs : List Event)
    (h : t.trace = s.trace ++ evs) : since s t = evs := by
  simp [since, h]

theorem since_trans {W : Type} (s t u : State W) (a b : List Event)
    (h₁ : t.trace = s.trace ++ a) (h₂ : u.trace = t.trace ++ b) : since s u = a ++ b := by
  simp [since, h₂, h₁]

theorem reaper_trace {W : Type} (os : OS W) (L : Cmd) (s : State W) :
    (reaper os L s).trace = s.trace ++
      (if ptrEq s.cmd L then [Event.wait L, Event.lock, Event.readCmd, Event.writeCmd, Event.unlock]
       else [Event.wait L, Event.lock, Event.readCmd, Event.unlock]) := by
  unfold reaper
  by_cases h : ptrEq s.cmd L = true <;> simp [State.emit, h]

theorem reaper_cmd {W : Type} (os : OS W) (L : Cmd) (s : State W) :
    (reaper os L s).cmd = if ptrEq s.cmd L then none else s.cmd := by
  unfold reaper
  by_cases h : ptrEq s.cmd L = true <;> simp [State.emit, h]

theorem isRunning_eq {W : Type} (os : OS W) (s : State W) :
    isRunning os s =
      match tracked s with
      | none => (false, { s with trace := s.trace ++ [Event.readCmd] })
      | some pid =>
        ((os.ProcessSignal s.world pid Signal.zero).1.isNone,
          { s with world := (os.ProcessSignal s.world pid Signal.zero).2,
                   trace := s.trace ++ [Event.readCmd, Event.signal pid Signal.zero] }) := by
  unfold isRunning tracked
  rcases hc : s.cmd with _ | c
  · simp [State.emit, hc]
  · rcases hp : c.Process with _ | pid <;> simp [State.emit, hc, hp]

theorem Stop_eq {W : Type} (os : OS W) (s : State W) :
    Stop os s =
      match tracked s with
      | none => (none, { s with trace := s.trace ++ [Event.lock, Event.readCmd, Event.unlock] })
      | some pid =>
        ((os.ProcessSignal s.world pid Signal.SIGTERM).1,
          { s with world := (os.ProcessSignal s.world pid Signal.SIGTERM).2,
                   trace := s.trace ++
                     [Event.lock, Event.readCmd, Event.signal pid Signal.SIGTERM, Event.unlock] }) := by
  unfold Stop tracked
  rcases hc : s.cmd with _ | c
  · simp [State.emit, hc]
  · rcases hp : c.Process with _ | pid
    · simp [State.emit, hc, hp]
    · simp only [State.emit, hc, hp]
      rcases hr : (os.ProcessSignal s.world pid Signal.SIGTERM).1 with _ | err <;> simp [hr]

theorem tracked_emit {W : Type} (s : State W) (e : Event) : tracked (s.emit e) = tracked s := rfl

theorem isRunning_fst_emit {W : Type} (os : OS W) (s : State W) (e : Event) :
    (isRunning os (s.emit e)).1 = (isRunning os s).1 := by
  rw [isRunning_eq, isRunning_eq, tracked_emit]
  cases tracked s <;> simp [State.emit]

theorem isRunning_state {W : Type} (os : OS W) (s : State W) :
    (isRunning os s).2 =
      { s with world := (isRunning os s).2.world, trace := s.trace ++ probeEvents s } := by
  rw [isRunning_eq]
  unfold probeEvents
  cases tracked s <;> simp

theorem isRunning_world_emit {W : Type} (os : OS W) (s : State W) (e : Event) :
    (isRunning os (s.emit e)).2.world = (isRunning os s).2.world := by
  rw [isRunning_eq, isRunning_eq, tracked_emit]
  cases tracked s <;> simp [State.emit]

theorem Start_eq {W : Type} (os : OS W) (s : State W) :
    Start os s =
      if (isRunning os s).1 then
        (none, { s with world := (isRunning os s).2.world,
                        trace := s.trace ++ Event.lock :: (probeEvents s ++ [Event.unlock]) })
      else
        match os.CmdStart (isRunning os s).2.world (watcherPath os (isRunning os s).2.world) with
        | (Sum.inl err, w) =>
          (some err, { s with world := w, heap := s.heap + 1,
                              trace := s.trace ++ Event.lock :: (probeEvents s ++
                                [Event.start (watcherPath os (isRunning os s).2.world),
                                 Event.unlock]) })
        | (Sum.inr pid, w) =>
          (none, { cmd := some ⟨s.heap, watcherPath os (isRunning os s).2.world, some pid⟩,
                   world := w, heap := s.heap + 1,
                   goroutines := s.goroutines ++
                     [⟨s.heap, watcherPath os (isRunning os s).2.world, some pid⟩],
                   trace := s.trace ++ Event.lock :: (probeEvents s ++
                     [Event.start (watcherPath os (isRunning os s).2.world), Event.writeCmd,
                      Event.go ⟨s.heap, watcherPath os (isRunning os s).2.world, some pid⟩,
                      Event.unlock]) }) := by
  unfold Start
  simp only [isRunning_fst_emit]
  have hst := isRunning_state os (s.emit Event.lock)
  rw [isRunning_world_emit] at hst
  generalize isRunning os (s.emit Event.lock) = r at hst
  obtain ⟨b, t⟩ := r
  simp only at hst
  subst hst
  by_cases h : (isRunning os s).1 = true
  · simp [h, State.emit, probeEvents, tracked]
  · simp only [h]
    simp only [State.emit, probeEvents, tracked]
    rcases hl : os.CmdStart (isRunning os s).2.world (watcherPath os (isRunning os s).2.world)
      with ⟨err | pid, w⟩ <;> simp [hl]

theorem isRunning_true_iff {W : Type} (os : OS W) (s : State W) :
    (isRunning os s).1 = true ↔
      ∃ c pid, s.cmd = some c ∧ c.Process = some pid ∧
        (os.ProcessSignal s.world pid Signal.zero).1 = none := by
  rw [isRunning_eq]
  unfold tracked
  rcases hc : s.cmd with _ | c
  · simp
  · rcases hp : c.Process with _ | pid <;> simp [hp]

theorem isRunning_since {W : Type} (os : OS W) (s : State W) :
    since s (isRunning os s).2 = probeEvents s := by
  rw [isRunning_state]
  simp [since]

theorem isRunning_trace {W : Type} (os : OS W) (s : State W) :
    (isRunning os s).2.trace = s.trace ++ probeEvents s := by
  rw [isRunning_state]

theorem isRunning_cmd {W : Type} (os : OS W) (s : State W) : (isRunning os s).2.cmd = s.cmd := by
  rw [isRunning_state]

theorem Stop_since {W : Type} (os : OS W) (s : State W) :
    since s (Stop os s).2 =
      match tracked s with
      | none => [Event.lock, Event.readCmd, Event.unlock]
      | some pid => [Event.lock, Event.readCmd, Event.signal pid Signal.SIGTERM, Event.unlock] := by
  rw [Stop_eq]
  cases tracked s <;> simp [since]

theorem Stop_trace {W : Type} (os : OS W) (s : State W) :
    (Stop os s).2.trace = s.trace ++ since s (Stop os s).2 := by
  rw [Stop_since, Stop_eq]
  cases tracked s <;> simp

theorem Stop_cmd {W : Type} (os : OS W) (s : State W) : (Stop os s).2.cmd = s.cmd := by
  rw [Stop_eq]
  cases tracked s <;> rfl

theorem probeEvents_launches {W : Type} (s : State W) (l : List Event) :
    launchesOf (probeEvents s ++ l) = launchesOf l ∧
    spawnsOf (probeEvents s ++ l) = spawnsOf l ∧
    writesOf (probeEvents s ++ l) = writesOf l := by
  unfold probeEvents
  cases tracked s <;> simp [launchesOf, spawnsOf, writesOf]

theorem probeEvents_writes {W : Type} (s : State W) : writesOf (probeEvents s) = 0 := by
  unfold probeEvents
  cases tracked s <;> rfl

theorem Start_since {W : Type} (os : OS W) (s : State W) :
    since s (Start os s).2 =
      Event.lock :: (probeEvents s ++
        if (isRunning os s).1 then [Event.unlock]
        else
          match (os.CmdStart (isRunning os s).2.world
              (watcherPath os (isRunning os s).2.world)).1 with
          | Sum.inl _ =>
            [Event.start (watcherPath os (isRunning os s).2.world), Event.unlock]
          | Sum.inr pid =>
            [Event.start (watcherPath os (isRunning os s).2.world), Event.writeCmd,
             Event.go ⟨s.heap, watcherPath os (isRunning os s).2.world, some pid⟩,
             Event.unlock]) := by
  rw [Start_eq]
  by_cases h : (isRunning os s).1 = true
  · simp [h, since]
  · simp only [h]
    rcases hl : os.CmdStart (isRunning os s).2.world (watcherPath os (isRunning os s).2.world)
      with ⟨err | pid, w⟩ <;> simp [since]

theorem Start_trace {W : Type} (os : OS W) (s : State W) :
    (Start os s).2.trace = s.trace ++ since s (Start os s).2 := by
  rw [Start_since, Start_eq]
  by_cases h : (isRunning os s).1 = true
  · simp [h]
  · simp only [h]
    rcases hl : os.CmdStart (isRunning os s).2.world (watcherPath os (isRunning os s).2.world)
      with ⟨err | pid, w⟩ <;> simp

theorem Start_cmd {W : Type} (os : OS W) (s : State W) :
    (Start os s).2.cmd =
      if (isRunning os s).1 then s.cmd
      else
        match (os.CmdStart (isRunning os s).2.world
            (watcherPath os (isRunning os s).2.world)).1 with
        | Sum.inl _ => s.cmd
        | Sum.inr pid => some ⟨s.heap, watcherPath os (isRunning os s).2.world, some pid⟩ := by
  rw [Start_eq]
  by_cases h : (isRunning os s).1 = true
  · simp [h]
  · simp only [h]
    rcases hl : os.CmdStart (isRunning os s).2.world (watcherPath os (isRunning os s).2.world)
      with ⟨err | pid, w⟩ <;> simp

theorem Start_fst {W : Type} (os : OS W) (s : State W) :
    (Start os s).1 =
      if (isRunning os s).1 then none
      else
        match (os.CmdStart (isRunning os s).2.world
            (watcherPath os (isRunning os s).2.world)).1 with
        | Sum.inl err => some err
        | Sum.inr _ => none := by
  rw [Start_eq]
  by_cases h : (isRunning os s).1 = true
  · simp [h]
  · simp only [h]
    rcases hl : os.CmdStart (isRunning os s).2.world (watcherPath os (isRunning os s).2.world)
      with ⟨err | pid, w⟩ <;> simp

theorem Start_goroutines {W : Type} (os : OS W) (s : State W) :
    (Start os s).2.goroutines = s.goroutines ++ spawnsOf (since s (Start os s).2) := by
  rw [Start_since, Start_eq]
  by_cases h : (isRunning os s).1 = true
  · simp [h, spawnsOf, probeEvents_launches]
  · simp only [h]
    rcases hl : os.CmdStart (isRunning os s).2.world (watcherPath os (isRunning os s).2.world)
      with ⟨err | pid, w⟩ <;> simp [spawnsOf, probeEvents_launches]

theorem Start_isSome {W : Type} (os : OS W) (s : State W) (h : s.cmd.isSome = true) :
    (Start os s).2.cmd.isSome = true := by
  rw [Start_cmd]
  split
  · exact h
  · split
    · exact h
    · rfl

theorem Start_noop_of_running {W : Type} (os : OS W) (s : State W)
    (h : (isRunning os s).1 = true) :
    (Start os s).1 = none ∧ (Start os s).2.cmd = s.cmd ∧
    launchesOf (since s (Start os s).2) = [] ∧ spawnsOf (since s (Start os s).2) = [] ∧
    writesOf (since s (Start os s).2) = 0 ∧
    (Start os s).2.goroutines = s.goroutines ∧ (Start os s).2.heap = s.heap := by
  rw [Start_eq]
  simp [h, since, launchesOf, spawnsOf, writesOf, probeEvents_launches]

theorem Restart_eq {W : Type} (os : OS W) (s : State W) :
    Restart os s =
      match (Stop os s).1 with
      | some err => (some err, (Stop os s).2)
      | none => Start os (Stop os s).2 := by
  unfold Restart
  rcases Stop os s with ⟨_ | err, t⟩ <;> rfl

theorem Restart_since {W : Type} (os : OS W) (s : State W) :
    since s (Restart os s).2 =
      since s (Stop os s).2 ++
        match (Stop os s).1 with
        | some _ => []
        | none => since (Stop os s).2 (Start os (Stop os s).2).2 := by
  rw [Restart_eq]
  rcases (Stop os s).1 with _ | err
  · exact since_trans _ _ _ _ _ (Stop_trace os s) (Start_trace os _)
  · simp

/-! ## Handles always have a process -/

theorem wellFormed_init {W : Type} (w : W) : wellFormed (NewStreamManager w) = true := rfl

theorem wellFormed_Stop {W : Type} (os : OS W) (s : State W) (h : wellFormed s = true) :
    wellFormed (Stop os s).2 = true := by
  unfold wellFormed at h ⊢
  rw [Stop_cmd]
  exact h

theorem wellFormed_isRunning {W : Type} (os : OS W) (s : State W) (h : wellFormed s = true) :
    wellFormed (isRunning os s).2 = true := by
  unfold wellFormed at h ⊢
  rw [isRunning_cmd]
  exact h

theorem wellFormed_Start {W : Type} (os : OS W) (s : State W) (h : wellFormed s = true) :
    wellFormed (Start os s).2 = true := by
  unfold wellFormed at h ⊢
  rw [Start_cmd]
  by_cases hr : (isRunning os s).1 = true
  · simpa [hr] using h
  · rcases hl : (os.CmdStart (isRunning os s).2.world
        (watcherPath os (isRunning os s).2.world)).1 with err | pid
    · simpa [hr] using h
    · simp [hr]

theorem wellFormed_Restart {W : Type} (os : OS W) (s : State W) (h : wellFormed s = true) :
    wellFormed (Restart os s).2 = true := by
  rw [Restart_eq]
  rcases (Stop os s).1 with _ | err
  · exact wellFormed_Start os _ (wellFormed_Stop os s h)
  · exact wellFormed_Stop os s h

theorem wellFormed_reaper {W : Type} (os : OS W) (L : Cmd) (s : State W)
    (h : wellFormed s = true) : wellFormed (reaper os L s) = true := by
  unfold wellFormed at h ⊢
  rw [reaper_cmd]
  by_cases hp : ptrEq s.cmd L = true
  · simp [hp]
  · simpa [hp] using h

theorem wellFormed_of_Reachable {s : State Kernel} (h : Reachable s) : wellFormed s = true := by
  induction h with
  | init watcher launchErr => rfl
  | step a _ _ ih =>
    cases a with
    | Start => exact wellFormed_Start _ _ ih
    | Stop => exact wellFormed_Stop _ _ ih
    | Restart => exact wellFormed_Restart _ _ ih
    | IsRunning => exact wellFormed_isRunning _ _ ih
    | exit pid => exact ih
    | reaper cmd => exact wellFormed_reaper _ _ _ ih
    | setLaunchErr err => exact ih
    | setWatcher path => exact ih

/-! ## The concrete operating system -/

theorem kernel_signal (k : Kernel) (pid : Nat) (sig : Signal) :
    (kernelOS.ProcessSignal k pid sig).2 = k ∧
    ((kernelOS.ProcessSignal k pid sig).1 = none ↔ pid ∈ k.alive) := by
  unfold kernelOS
  by_cases h : pid ∈ k.alive <;> simp [h]

theorem kernel_start (k : Kernel) (path : String) :
    kernelOS.CmdStart k path =
      match k.launchErr with
      | some err => (Sum.inl err, k)
      | none =>
        (Sum.inr k.nextPid, { k with alive := k.nextPid :: k.alive, nextPid := k.nextPid + 1 }) :=
  rfl

theorem isRunning_kernel (s : State Kernel) :
    (isRunning kernelOS s).2.world = s.world ∧
    ((isRunning kernelOS s).1 = true ↔ ∃ pid, tracked s = some pid ∧ pid ∈ s.world.alive) := by
  rw [isRunning_eq]
  rcases ht : tracked s with _ | pid
  · simp
  · simp [kernel_signal]

theorem Start_kernel_fail (s : State Kernel) (err : Error)
    (hr : (isRunning kernelOS s).1 = false) (hl : s.world.launchErr = some err) :
    (Start kernelOS s).1 = some err ∧ (Start kernelOS s).2.cmd = s.cmd ∧
    (Start kernelOS s).2.world = s.world ∧ (Start kernelOS s).2.heap = s.heap + 1 ∧
    (Start kernelOS s).2.goroutines = s.goroutines := by
  rw [Start_eq]
  simp [hr, (isRunning_kernel s).1, kernel_start, hl]

theorem Start_kernel_ok (s : State Kernel)
    (hr : (isRunning kernelOS s).1 = false) (hl : s.world.launchErr = none) :
    (Start kernelOS s).1 = none ∧
    (Start kernelOS s).2.cmd =
      some ⟨s.heap, watcherPath kernelOS s.world, some s.world.nextPid⟩ ∧
    (Start kernelOS s).2.world.alive = s.world.nextPid :: s.world.alive ∧
    (Start kernelOS s).2.heap = s.heap + 1 ∧
    (Start kernelOS s).2.goroutines =
      s.goroutines ++ [⟨s.heap, watcherPath kernelOS s.world, some s.world.nextPid⟩] := by
  rw [Start_eq]
  simp [hr, (isRunning_kernel s).1, kernel_start, hl]

theorem Start_kernel_running (s : State Kernel) (hr : (isRunning kernelOS s).1 = true) :
    (Start kernelOS s).1 = none ∧ (Start kernelOS s).2.cmd = s.cmd ∧
    (Start kernelOS s).2.world = s.world ∧ (Start kernelOS s).2.heap = s.heap ∧
    (Start kernelOS s).2.goroutines = s.goroutines := by
  rw [Start_eq]
  simp [hr, (isRunning_kernel s).1]

theorem Start_twice_kernel (k : State Kernel) (hk : (Start kernelOS k).1 = none) :
    (isRunning kernelOS (Start kernelOS k).2).1 = true := by
  rw [(isRunning_kernel _).2]
  rw [Start_eq] at hk ⊢
  by_cases h : (isRunning kernelOS k).1 = true
  · simp only [h, if_true]
    obtain ⟨pid, hp, ha⟩ := (isRunning_kernel k).2.1 h
    exact ⟨pid, by simpa [tracked] using hp, by simpa [(isRunning_kernel k).1] using ha⟩
  · simp only [h] at hk ⊢
    simp only [(isRunning_kernel k).1] at hk ⊢
    rcases hl : k.world.launchErr with _ | err
    · simp [kernelOS, hl, tracked]
    · simp [kernelOS, hl] at hk

theorem run_runningState :
    run (NewStreamManager (boot "" none)) [Action.Start] = some runningState := by
  decide

theorem run_staleState :
    run (NewStreamManager (boot "" none))
        [Action.Start, Action.exit 1,
         Action.setLaunchErr (some "fork/exec ./stream_watcher.sh: no such file or directory")] =
      some staleState := by
  decide

theorem Reachable_of_run {s t : State Kernel} (as : List Action) (hs : Reachable s)
    (h : run s as = some t) : Reachable t := by
  induction as generalizing s with
  | nil =>
    simp only [run, Option.some.injEq] at h
    exact h ▸ hs
  | cons a as ih =>
    unfold run at h
    by_cases he : enabled a s = true
    · rw [if_pos he] at h
      exact ih (Reachable.step a hs he) h
    · rw [if_neg he] at h
      exact absurd h (by simp)

/-- The race the identity check is there for: `Stop`, the exit of the first launch
and a second `Start` all happen before the reaper of the first launch runs; the
handle of the second launch survives it. -/
theorem reaper_spares_newer_launch :
    Option.map (fun s => s.cmd)
        (run (NewStreamManager (boot "" none))
          [Action.Start, Action.Stop, Action.exit 1, Action.Start,
           Action.reaper ⟨0, "./stream_watcher.sh", some 1⟩]) =
      some (some ⟨1, "./stream_watcher.sh", some 2⟩) := by
  decide

/-! ## The invariant of the reachable states -/

theorem Inv_of_eq {s t : State Kernel} (h : Inv s) (hc : t.cmd = s.cmd)
    (ha : t.world.alive = s.world.alive) (hh : t.heap = s.heap)
    (hg : t.goroutines = s.goroutines) : Inv t := by
  obtain ⟨h1, h2, h3, h4⟩ := h
  refine ⟨?_, ?_, ?_, ?_⟩
  · simpa [tracked, hc, ha] using h1
  · simpa [hg, hh] using h2
  · simpa [hg] using h3
  · simpa [hg, hc] using h4

theorem Inv_init (watcher : String) (launchErr : Option Error) :
    Inv (NewStreamManager (boot watcher launchErr)) := by
  refine ⟨?_, ?_, ?_, ?_⟩ <;> simp [NewStreamManager, boot]

theorem Inv_isRunning {s : State Kernel} (h : Inv s) : Inv (isRunning kernelOS s).2 := by
  apply Inv_of_eq h
  · rw [isRunning_state]
  · rw [(isRunning_kernel s).1]
  · rw [isRunning_state]
  · rw [isRunning_state]

theorem Inv_Stop {s : State Kernel} (h : Inv s) : Inv (Stop kernelOS s).2 := by
  rw [Stop_eq]
  cases tracked s
  · exact Inv_of_eq h rfl rfl rfl rfl
  · exact Inv_of_eq h rfl (by simp [kernel_signal]) rfl rfl

theorem Inv_Start {s : State Kernel} (h : Inv s) : Inv (Start kernelOS s).2 := by
  by_cases hr : (isRunning kernelOS s).1 = true
  · obtain ⟨_, h1, h2, h3, h4⟩ := Start_kernel_running s hr
    exact Inv_of_eq h h1 (by rw [h2]) h3 h4
  · have hr : (isRunning kernelOS s).1 = false := by simpa using hr
    have hdead : s.world.alive = [] := by
      rcases h.alive with h0 | ⟨pid, hp, ha⟩
      · exact h0
      · have := (isRunning_kernel s).2.2 ⟨pid, hp, by simp [ha]⟩
        simp [hr] at this
    rcases hl : s.world.launchErr with _ | err
    · obtain ⟨_, h1, h2, h3, h4⟩ := Start_kernel_ok s hr hl
      refine ⟨?_, ?_, ?_, ?_⟩
      · right
        exact ⟨s.world.nextPid, by simp [tracked, h1], by simp [h2, hdead]⟩
      · rw [h3, h4]
        intro c hc
        rw [List.mem_append, List.mem_singleton] at hc
        rcases hc with hc | hc
        · exact Nat.lt_succ_of_lt (h.fresh c hc)
        · simp [hc]
      · rw [h4]
        intro c₁ h₁ c₂ h₂ he
        rw [List.mem_append, List.mem_singleton] at h₁ h₂
        rcases h₁ with h₁ | h₁ <;> rcases h₂ with h₂ | h₂
        · exact h.inj c₁ h₁ c₂ h₂ he
        · have := h.fresh c₁ h₁
          simp [h₂] at he
          omega
        · have := h.fresh c₂ h₂
          simp [h₁] at he
          omega
        · rw [h₁, h₂]
      · rw [h1, h4]
        intro c hc
        rw [Option.some.injEq] at hc
        simp [← hc]
    · obtain ⟨_, h1, h2, h3, h4⟩ := Start_kernel_fail s err hr hl
      refine ⟨?_, ?_, ?_, ?_⟩
      · simpa [tracked, h1, h2] using h.alive
      · rw [h3, h4]
        intro c hc
        exact Nat.lt_succ_of_lt (h.fresh c hc)
      · rw [h4]
        exact h.inj
      · rw [h1, h4]
        exact h.watched

theorem Inv_Restart {s : State Kernel} (h : Inv s) : Inv (Restart kernelOS s).2 := by
  unfold Restart
  have hs := Inv_Stop h
  rcases hr : Stop kernelOS s with ⟨_ | err, t⟩
  · rw [hr] at hs
    exact Inv_Start hs
  · rw [hr] at hs
    exact hs

theorem Inv_exit {s : State Kernel} (h : Inv s) (pid : Nat) :
    Inv { s with world := { s.world with alive := s.world.alive.erase pid } } := by
  refine ⟨?_, h.fresh, h.inj, h.watched⟩
  rcases h.alive with h0 | ⟨p, hp, ha⟩
  · left
    simp [h0]
  · by_cases hpp : p = pid
    · left
      simp [ha, hpp]
    · right
      refine ⟨p, by simpa [tracked] using hp, ?_⟩
      simp [ha, List.erase_cons, hpp]

theorem Inv_reaper {s : State Kernel} (h : Inv s) (cmd : Cmd)
    (he : enabled (Action.reaper cmd) s = true) : Inv (reaper kernelOS cmd s) := by
  simp only [enabled, Bool.and_eq_true, decide_eq_true_eq] at he
  obtain ⟨hmem, hdead⟩ := he
  have hcmd := reaper_cmd kernelOS cmd s
  have hw : (reaper kernelOS cmd s).world = s.world := by
    unfold reaper
    cases cmd.Process <;> simp [State.emit, kernelOS] <;> split <;> rfl
  have hh : (reaper kernelOS cmd s).heap = s.heap := by
    unfold reaper
    simp only [State.emit]
    split <;> rfl
  have hg : (reaper kernelOS cmd s).goroutines = s.goroutines.erase cmd := by
    unfold reaper
    simp only [State.emit]
    split <;> rfl
  refine ⟨?_, ?_, ?_, ?_⟩
  · rw [hw]
    by_cases hp : ptrEq s.cmd cmd = true
    · left
      obtain ⟨c, hc, hca⟩ := (ptrEq_iff _ _).1 hp
      have hceq : c = cmd := h.inj c (h.watched c hc) cmd hmem hca
      rcases h.alive with h0 | ⟨p, hpt, ha⟩
      · exact h0
      · exfalso
        simp only [tracked, hc, hceq] at hpt
        simp [hpt, ha] at hdead
    · simp only [tracked, hcmd, hp]
      simpa [tracked] using h.alive
  · rw [hg, hh]
    intro c hc
    exact h.fresh c (List.mem_of_mem_erase hc)
  · rw [hg]
    intro c₁ h₁ c₂ h₂
    exact h.inj c₁ (List.mem_of_mem_erase h₁) c₂ (List.mem_of_mem_erase h₂)
  · rw [hg, hcmd]
    intro c hc
    by_cases hp : ptrEq s.cmd cmd = true
    · simp [hp] at hc
    · simp only [hp] at hc
      have hne : c ≠ cmd := by
        intro hcc
        apply hp
        rw [ptrEq_iff]
        exact ⟨c, hc, by rw [hcc]⟩
      exact (List.mem_erase_of_ne hne).2 (h.watched c hc)

theorem Inv_step {s : State Kernel} (h : Inv s) (a : Action) (he : enabled a s = true) :
    Inv (step a s) := by
  cases a with
  | Start => exact Inv_Start h
  | Stop => exact Inv_Stop h
  | Restart => exact Inv_Restart h
  | IsRunning => exact Inv_isRunning h
  | exit pid => exact Inv_exit h pid
  | reaper cmd => exact Inv_reaper h cmd he
  | setLaunchErr err => exact Inv_of_eq h rfl rfl rfl rfl
  | setWatcher path => exact Inv_of_eq h rfl rfl rfl rfl

theorem Inv_of_Reachable {s : State Kernel} (h : Reachable s) : Inv s := by
  induction h with
  | init watcher launchErr => exact Inv_init watcher launchErr
  | step a _ he ih => exact Inv_step ih a he

/-! ## Lock discipline of the traces -/

theorem disciplined_append (held : Bool) (a b : List Event) :
    disciplined held (a ++ b) = (disciplined held a && disciplined (heldAfter held a) b) := by
  induction a generalizing held with
  | nil => simp [disciplined, heldAfter]
  | cons e es ih =>
    cases e <;> simp [disciplined, heldAfter, ih, Bool.and_assoc]

theorem heldAfter_append (held : Bool) (a b : List Event) :
    heldAfter held (a ++ b) = heldAfter (heldAfter held a) b := by
  induction a generalizing held with
  | nil => simp [heldAfter]
  | cons e es ih =>
    cases e <;> simp [heldAfter, ih]

theorem probeEvents_disciplined {W : Type} (s : State W) (held : Bool) :
    disciplined held (probeEvents s) = held ∧ heldAfter held (probeEvents s) = held := by
  unfold probeEvents
  cases tracked s <;> simp [disciplined, heldAfter]

theorem probeEvents_unlocked {W : Type} (s : State W) (l : List Event) :
    disciplined false (probeEvents s ++ l) = false := by
  rw [disciplined_append, (probeEvents_disciplined s false).1]
  rfl

theorem Start_disciplined {W : Type} (os : OS W) (s : State W) :
    disciplined false (since s (Start os s).2) = true ∧
    heldAfter false (since s (Start os s).2) = false := by
  rw [Start_since]
  simp only [disciplined, heldAfter, disciplined_append, heldAfter_append,
    probeEvents_disciplined]
  by_cases h : (isRunning os s).1 = true
  · simp [h, disciplined, heldAfter]
  · rcases hl : (os.CmdStart (isRunning os s).2.world
        (watcherPath os (isRunning os s).2.world)).1 with err | pid <;>
      simp [h, disciplined, heldAfter]

theorem Stop_disciplined {W : Type} (os : OS W) (s : State W) :
    disciplined false (since s (Stop os s).2) = true ∧
    heldAfter false (since s (Stop os s).2) = false := by
  rw [Stop_since]
  cases tracked s <;> simp [disciplined, heldAfter]

theorem Restart_disciplined {W : Type} (os : OS W) (s : State W) :
    disciplined false (since s (Restart os s).2) = true ∧
    heldAfter false (since s (Restart os s).2) = false := by
  rw [Restart_since, disciplined_append, heldAfter_append, (Stop_disciplined os s).1,
    (Stop_disciplined os s).2]
  rcases (Stop os s).1 with _ | err
  · simpa using Start_disciplined os (Stop os s).2
  · simp [disciplined, heldAfter]

theorem reaper_disciplined {W : Type} (os : OS W) (L : Cmd) (s : State W) :
    disciplined false (since s (reaper os L s)) = true ∧
    heldAfter false (since s (reaper os L s)) = false := by
  rw [since_append s _ _ (reaper_trace os L s)]
  by_cases h : ptrEq s.cmd L = true <;> simp [h, disciplined, heldAfter]

theorem statusHandler_since {W : Type} (os : OS W) (s : State W) :
    since s (statusHandler os s).2 = probeEvents s ++ [] := by
  unfold statusHandler
  simp [isRunning_since]

theorem startHandler_since {W : Type} (os : OS W) (s : State W) :
    ∃ l, since s (startHandler os s).2 = probeEvents s ++ l := by
  unfold startHandler
  by_cases h : (isRunning os s).1 = true
  · exact ⟨[], by simp [h, isRunning_since]⟩
  · refine ⟨since (isRunning os s).2 (Start os (isRunning os s).2).2, ?_⟩
    simp only [h]
    have := since_trans s _ _ _ _ (isRunning_trace os s) (Start_trace os (isRunning os s).2)
    rcases hr : Start os (isRunning os s).2 with ⟨_ | err, t⟩ <;> simpa [hr] using this

theorem stopHandler_since {W : Type} (os : OS W) (s : State W) :
    ∃ l, since s (stopHandler os s).2 = probeEvents s ++ l := by
  unfold stopHandler
  by_cases h : (isRunning os s).1 = true
  · refine ⟨since (isRunning os s).2 (Stop os (isRunning os s).2).2, ?_⟩
    have := since_trans s _ _ _ _ (isRunning_trace os s) (Stop_trace os (isRunning os s).2)
    rcases hr : Stop os (isRunning os s).2 with ⟨_ | err, t⟩ <;> simpa [h, hr] using this
  · exact ⟨[], by simp [h, isRunning_since]⟩

/-! ## The properties of the supervisor -/

/-- C1, identity-guarded reap.  For every state, every operating system and every
launch `L`, the reaper of `L` writes the handle exactly when the handle refers to `L`,
and then the handle is absent afterwards; when the handle refers to another launch or
is absent, the reaper leaves it as it was and writes nothing. -/
theorem reaper_identity_guarded {W : Type} (os : OS W) (L : Cmd) (s : State W) :
    (writesOf (since s (reaper os L s)) = 1 ↔ refersTo s.cmd L) ∧
    (refersTo s.cmd L → (reaper os L s).cmd = none) ∧
    (¬ refersTo s.cmd L →
      (reaper os L s).cmd = s.cmd ∧ writesOf (since s (reaper os L s)) = 0) := by
  rw [since_append s _ _ (reaper_trace os L s), reaper_cmd, ← ptrEq_iff]
  by_cases h : ptrEq s.cmd L = true <;> simp [h, writesOf]

/-- C2, idempotent start.  In every state in which `isRunning` answers true, `Start`
returns nil, attempts no launch, spawns no reaper and leaves the handle (and the
allocation counter) unchanged.  Consequently, over the concrete operating system, a
second `Start` right after a `Start` that returned nil (no process exit in between)
returns nil, attempts no launch and leaves the handle and the live processes as the
first call left them. -/
theorem Start_idempotent {W : Type} (os : OS W) (s : State W) (k : State Kernel)
    (h : (isRunning os s).1 = true) (hk : (Start kernelOS k).1 = none) :
    ((Start os s).1 = none ∧ (Start os s).2.cmd = s.cmd ∧
      launchesOf (since s (Start os s).2) = [] ∧ spawnsOf (since s (Start os s).2) = [] ∧
      writesOf (since s (Start os s).2) = 0 ∧
      (Start os s).2.goroutines = s.goroutines ∧ (Start os s).2.heap = s.heap) ∧
    ((Start kernelOS (Start kernelOS k).2).1 = none ∧
      (Start kernelOS (Start kernelOS k).2).2.cmd = (Start kernelOS k).2.cmd ∧
      launchesOf (since (Start kernelOS k).2 (Start kernelOS (Start kernelOS k).2).2) = [] ∧
      (Start kernelOS (Start kernelOS k).2).2.world.alive = (Start kernelOS k).2.world.alive) := by
  refine ⟨Start_noop_of_running os s h, ?_⟩
  have h2 := Start_twice_kernel k hk
  obtain ⟨a, b, c, _, _, _, _⟩ := Start_noop_of_running kernelOS _ h2
  exact ⟨a, b, c, by rw [(Start_kernel_running _ h2).2.2.1]⟩

/-- The hypotheses of `Start_idempotent` hold on the state after a first `Start` of a
fresh supervisor and on the fresh supervisor itself. -/
theorem Start_idempotent_witness :
    ((isRunning kernelOS runningState).1 = true ∧
      (Start kernelOS (NewStreamManager (boot "" none))).1 = none) ∧
    ((Start kernelOS runningState).1 = none ∧
      (Start kernelOS runningState).2.cmd = runningState.cmd ∧
      launchesOf (since runningState (Start kernelOS runningState).2) = []) :=
  ⟨⟨by decide, by decide⟩,
    (Start_idempotent kernelOS runningState (NewStreamManager (boot "" none))
      (by decide) (by decide)).1.1,
    (Start_idempotent kernelOS runningState (NewStreamManager (boot "" none))
      (by decide) (by decide)).1.2.1,
    (Start_idempotent kernelOS runningState (NewStreamManager (boot "" none))
      (by decide) (by decide)).1.2.2.1⟩

/-- C3, at most one live worker.  In every state reachable from a fresh supervisor by
`Start`, `Stop`, `Restart`, `isRunning`, process-exit and reaper steps (a `Restart`
interrupted between its `Stop` and its `Start` is a `Stop` step and a `Start` step),
over the operating system whose probe succeeds exactly when the process is alive, at
most one launched process is alive, and a live one is the process of the handle. -/
theorem at_most_one_live_worker (s : State Kernel) (h : Reachable s) :
    s.world.alive.length ≤ 1 ∧
    ∀ pid ∈ s.world.alive, ∃ c, s.cmd = some c ∧ c.Process = some pid := by
  have hi := Inv_of_Reachable h
  rcases hi.alive with h0 | ⟨pid, hp, ha⟩
  · simp [h0]
  · rw [ha]
    refine ⟨by simp, ?_⟩
    intro p hpm
    rw [List.mem_singleton] at hpm
    subst hpm
    unfold tracked at hp
    rcases hc : s.cmd with _ | c
    · simp [hc] at hp
    · rw [hc] at hp
      exact ⟨c, rfl, hp⟩

/-- The state after one successful `Start` is reachable, has one live process, and
`at_most_one_live_worker` applies to it. -/
theorem at_most_one_live_worker_witness :
    Reachable runningState ∧ runningState.world.alive = [1] ∧
    (runningState.world.alive.length ≤ 1 ∧
      ∀ pid ∈ runningState.world.alive,
        ∃ c, runningState.cmd = some c ∧ c.Process = some pid) :=
  ⟨Reachable.step Action.Start (Reachable.init "" none) rfl, by decide,
    at_most_one_live_worker runningState
      (Reachable.step Action.Start (Reachable.init "" none) rfl)⟩

/-- C4, only `Start` and the reaper write the handle.  In every state and whatever the
operating system answers, `Stop` and `isRunning` leave the handle as it was and write
nothing; `Start` either leaves it as it was or, the launch having succeeded, makes it
the new launch; the reaper either leaves it as it was or, the identity check having
matched, makes it absent; and a present handle is still present after `Stop`,
`isRunning`, `Start` and `Restart`. -/
theorem handle_writers {W : Type} (os : OS W) (s : State W) (L : Cmd) :
    ((Stop os s).2.cmd = s.cmd ∧ writesOf (since s (Stop os s).2) = 0) ∧
    ((isRunning os s).2.cmd = s.cmd ∧ writesOf (since s (isRunning os s).2) = 0) ∧
    (((Start os s).2.cmd = s.cmd ∧ writesOf (since s (Start os s).2) = 0) ∨
      ((isRunning os s).1 = false ∧ (Start os s).1 = none ∧
        ∃ pid, (os.CmdStart (isRunning os s).2.world
            (watcherPath os (isRunning os s).2.world)).1 = Sum.inr pid ∧
          (Start os s).2.cmd =
            some ⟨s.heap, watcherPath os (isRunning os s).2.world, some pid⟩)) ∧
    (((reaper os L s).cmd = s.cmd ∧ writesOf (since s (reaper os L s)) = 0) ∨
      (refersTo s.cmd L ∧ (reaper os L s).cmd = none)) ∧
    (s.cmd.isSome = true →
      (Stop os s).2.cmd.isSome = true ∧ (isRunning os s).2.cmd.isSome = true ∧
      (Start os s).2.cmd.isSome = true ∧ (Restart os s).2.cmd.isSome = true) := by
  refine ⟨⟨Stop_cmd os s, ?_⟩, ⟨isRunning_cmd os s, ?_⟩, ?_, ?_, ?_⟩
  · rw [Stop_since]
    cases tracked s <;> rfl
  · rw [isRunning_since, probeEvents_writes]
  · rw [Start_cmd, Start_since, Start_fst]
    by_cases h : (isRunning os s).1 = true
    · left
      simp [h, writesOf, probeEvents_launches]
    · rcases hl : (os.CmdStart (isRunning os s).2.world
          (watcherPath os (isRunning os s).2.world)).1 with err | pid
      · left
        simp [h, writesOf, probeEvents_launches]
      · right
        simp [h]
  · rw [reaper_cmd, since_append s _ _ (reaper_trace os L s), ← ptrEq_iff]
    by_cases h : ptrEq s.cmd L = true
    · right
      simp [h]
    · left
      simp [h, writesOf]
  · intro h
    refine ⟨by rw [Stop_cmd]; exact h, by rw [isRunning_cmd]; exact h, Start_isSome os s h, ?_⟩
    rw [Restart_eq]
    rcases hr : (Stop os s).1 with _ | err
    · exact Start_isSome os _ (by rw [Stop_cmd]; exact h)
    · simp only [Stop_cmd]
      exact h

/-- C5 as amended, launch failure.  In every state in which `isRunning` answers false
and the launch `Start` then attempts fails with `err`, `Start` returns exactly `err`,
spawns no reaper, and leaves the handle as it was (it writes nothing): absent when it
was absent, and still the stale handle when a dead process was not reaped yet. -/
theorem Start_launch_failure {W : Type} (os : OS W) (s : State W) (err : Error) (w : W)
    (h : (isRunning os s).1 = false)
    (hl : os.CmdStart (isRunning os s).2.world (watcherPath os (isRunning os s).2.world)
      = (Sum.inl err, w)) :
    (Start os s).1 = some err ∧ spawnsOf (since s (Start os s).2) = [] ∧
    (Start os s).2.goroutines = s.goroutines ∧ (Start os s).2.cmd = s.cmd ∧
    writesOf (since s (Start os s).2) = 0 := by
  have hg := Start_goroutines os s
  rw [Start_since] at hg ⊢
  rw [Start_fst, Start_cmd, hg]
  simp [h, hl, spawnsOf, writesOf, probeEvents_launches]

/-- The hypotheses of `Start_launch_failure` hold on `staleState`. -/
theorem Start_launch_failure_witness :
    ((isRunning kernelOS staleState).1 = false ∧
      kernelOS.CmdStart (isRunning kernelOS staleState).2.world
          (watcherPath kernelOS (isRunning kernelOS staleState).2.world) =
        (Sum.inl "fork/exec ./stream_watcher.sh: no such file or directory",
          staleState.world)) ∧
    ((Start kernelOS staleState).1 =
        some "fork/exec ./stream_watcher.sh: no such file or directory" ∧
      spawnsOf (since staleState (Start kernelOS staleState).2) = [] ∧
      (Start kernelOS staleState).2.goroutines = staleState.goroutines ∧
      (Start kernelOS staleState).2.cmd = staleState.cmd ∧
      writesOf (since staleState (Start kernelOS staleState).2) = 0) :=
  ⟨⟨by decide, by decide⟩,
    Start_launch_failure kernelOS staleState
      "fork/exec ./stream_watcher.sh: no such file or directory" staleState.world
      (by decide) (by decide)⟩

/-- C5 as stated fails.  `staleState` is reachable (start, the worker exits, the script
becomes unlaunchable, the reaper has not run); there `isRunning` answers false, the
launch `Start` attempts fails, `Start` returns that error, and the handle is not
absent when `Start` returns: it still refers to the dead launch. -/
theorem Start_launch_failure_keeps_stale_handle :
    Reachable staleState ∧
    (isRunning kernelOS staleState).1 = false ∧
    (kernelOS.CmdStart (isRunning kernelOS staleState).2.world
        (watcherPath kernelOS (isRunning kernelOS staleState).2.world)).1 =
      Sum.inl "fork/exec ./stream_watcher.sh: no such file or directory" ∧
    (Start kernelOS staleState).1 =
      some "fork/exec ./stream_watcher.sh: no such file or directory" ∧
    launchesOf (since staleState (Start kernelOS staleState).2) = ["./stream_watcher.sh"] ∧
    (Start kernelOS staleState).2.cmd = some ⟨0, "./stream_watcher.sh", some 1⟩ ∧
    (Start kernelOS staleState).2.cmd ≠ none := by
  refine ⟨?_, by decide, by decide, by decide, by decide, by decide, by decide⟩
  exact Reachable.step _ (Reachable.step _
    (Reachable.step Action.Start (Reachable.init "" none) rfl) (by decide)) rfl

/-- C6, probe-based status.  In every state, `isRunning` answers true exactly when the
handle is present, has a process, and the zero signal to that process is delivered;
when the zero signal fails, the answer is false and the handle stays where it was. -/
theorem isRunning_probe {W : Type} (os : OS W) (s : State W) :
    ((isRunning os s).1 = true ↔
      ∃ c pid, s.cmd = some c ∧ c.Process = some pid ∧
        (os.ProcessSignal s.world pid Signal.zero).1 = none) ∧
    (∀ c pid err, s.cmd = some c → c.Process = some pid →
      (os.ProcessSignal s.world pid Signal.zero).1 = some err →
        (isRunning os s).1 = false ∧ (isRunning os s).2.cmd = some c) := by
  refine ⟨isRunning_true_iff os s, ?_⟩
  intro c pid err hc hp he
  rw [isRunning_eq]
  simp [tracked, hc, hp, he]

/-- C7, the signal and the result of `Stop`.  In every state whose handle, when
present, has a process: `Stop` sends a signal exactly when the handle is present;
with no handle it returns nil and sends nothing; with a handle it sends exactly one
signal, `SIGTERM`, to the tracked process, and returns what the delivery returned
(nil when delivered, the delivery error otherwise). -/
theorem Stop_signal_and_result {W : Type} (os : OS W) (s : State W)
    (h : wellFormed s = true) :
    (signalsOf (since s (Stop os s).2) ≠ [] ↔ s.cmd.isSome = true) ∧
    (s.cmd = none → (Stop os s).1 = none ∧ signalsOf (since s (Stop os s).2) = []) ∧
    (∀ c, s.cmd = some c → ∃ pid, c.Process = some pid ∧
      signalsOf (since s (Stop os s).2) = [(pid, Signal.SIGTERM)] ∧
      (Stop os s).1 = (os.ProcessSignal s.world pid Signal.SIGTERM).1) := by
  rw [Stop_since, Stop_eq]
  unfold wellFormed at h
  unfold tracked
  rcases hc : s.cmd with _ | c
  · simp [signalsOf]
  · rw [hc] at h
    rcases hp : c.Process with _ | pid
    · simp [hp] at h
    · simp [hp, signalsOf]

/-- The hypothesis of `Stop_signal_and_result` holds on the state after one successful
`Start`. -/
theorem Stop_signal_and_result_witness :
    wellFormed runningState = true ∧
    ((signalsOf (since runningState (Stop kernelOS runningState).2) ≠ [] ↔
        runningState.cmd.isSome = true) ∧
      (runningState.cmd = none →
        (Stop kernelOS runningState).1 = none ∧
          signalsOf (since runningState (Stop kernelOS runningState).2) = []) ∧
      (∀ c, runningState.cmd = some c → ∃ pid, c.Process = some pid ∧
        signalsOf (since runningState (Stop kernelOS runningState).2) =
          [(pid, Signal.SIGTERM)] ∧
        (Stop kernelOS runningState).1 =
          (kernelOS.ProcessSignal runningState.world pid Signal.SIGTERM).1)) :=
  ⟨by decide, Stop_signal_and_result kernelOS runningState (by decide)⟩

/-- C8, `Restart` is `Stop` then `Start`, short-circuiting.  In every state: when `Stop`
returns an error, `Restart` returns that error in the very state `Stop` left (so
`Start` did not run), no launch was attempted and the handle is unchanged; when
`Stop` returns nil, `Restart` is `Start` run on the state `Stop` left. -/
theorem Restart_stop_then_start {W : Type} (os : OS W) (s : State W) :
    (∀ err, (Stop os s).1 = some err →
      Restart os s = (some err, (Stop os s).2) ∧
      launchesOf (since s (Restart os s).2) = [] ∧ (Restart os s).2.cmd = s.cmd) ∧
    ((Stop os s).1 = none → Restart os s = Start os (Stop os s).2) := by
  rw [Restart_eq]
  constructor
  · intro err he
    rw [he]
    refine ⟨rfl, ?_, Stop_cmd os s⟩
    simp only [Stop_since]
    cases tracked s <;> rfl
  · intro he
    rw [he]

/-- C9, `Restart` is not a synchronous transition.  `runningState` is reachable, its
worker (pid 1) is tracked and alive; `Restart` there returns nil, and its own trace is
the `SIGTERM` sent to the worker under the lock followed by the probe of `Start` under
the lock: the signals `Restart` sent are `SIGTERM` and then the zero signal, both to
pid 1, no launch was attempted and no reaper spawned; afterwards the worker is still
alive, the handle still refers to the launch made before, and `isRunning` answers
true. -/
theorem Restart_not_synchronous :
    Reachable runningState ∧
    runningState.cmd = some ⟨0, "./stream_watcher.sh", some 1⟩ ∧
    runningState.world.alive = [1] ∧
    (Restart kernelOS runningState).1 = none ∧
    since runningState (Restart kernelOS runningState).2 =
      [Event.lock, Event.readCmd, Event.signal 1 Signal.SIGTERM, Event.unlock,
       Event.lock, Event.readCmd, Event.signal 1 Signal.zero, Event.unlock] ∧
    signalsOf (since runningState (Restart kernelOS runningState).2) =
      [(1, Signal.SIGTERM), (1, Signal.zero)] ∧
    launchesOf (since runningState (Restart kernelOS runningState).2) = [] ∧
    spawnsOf (since runningState (Restart kernelOS runningState).2) = [] ∧
    (Restart kernelOS runningState).2.world.alive = [1] ∧
    (Restart kernelOS runningState).2.cmd = some ⟨0, "./stream_watcher.sh", some 1⟩ ∧
    (isRunning kernelOS (Restart kernelOS runningState).2).1 = true := by
  refine ⟨Reachable.step Action.Start (Reachable.init "" none) rfl, ?_⟩
  decide

/-- C10, lock discipline, which the handlers break.  In every state, the traces of
`Start`, `Stop`, `Restart`, the reaper and the restart handler access `m.cmd` only
between `lock` and `unlock`; the traces of the status, start and stop handlers do
not: each begins with the read of `m.cmd` made by a bare call of `isRunning`, as the
trace of the status handler on a running and on a fresh supervisor shows. -/
theorem lock_discipline_broken_by_handlers {W : Type} (os : OS W) (s : State W) (L : Cmd) :
    (disciplined false (since s (Start os s).2) = true ∧
      disciplined false (since s (Stop os s).2) = true ∧
      disciplined false (since s (Restart os s).2) = true ∧
      disciplined false (since s (reaper os L s)) = true ∧
      disciplined false (since s (restartHandler os s).2) = true) ∧
    (disciplined false (since s (statusHandler os s).2) = false ∧
      disciplined false (since s (startHandler os s).2) = false ∧
      disciplined false (since s (stopHandler os s).2) = false) ∧
    (since runningState (statusHandler kernelOS runningState).2 =
        [Event.readCmd, Event.signal 1 Signal.zero] ∧
      since (NewStreamManager (boot "" none))
          (statusHandler kernelOS (NewStreamManager (boot "" none))).2 = [Event.readCmd]) := by
  refine ⟨⟨(Start_disciplined os s).1, (Stop_disciplined os s).1, (Restart_disciplined os s).1,
    (reaper_disciplined os L s).1, ?_⟩, ⟨?_, ?_, ?_⟩, by decide, by decide⟩
  · have h := (Restart_disciplined os s).1
    unfold restartHandler
    rcases hr : Restart os s with ⟨_ | err, t⟩ <;> simpa [hr] using h
  · rw [statusHandler_since, probeEvents_unlocked]
  · obtain ⟨l, hl⟩ := startHandler_since os s
    rw [hl, probeEvents_unlocked]
  · obtain ⟨l, hl⟩ := stopHandler_since os s
    rw [hl, probeEvents_unlocked]

end Video2Stream
